import Mathlib

/-!
Verification development for the `spectrum_tracer_rs` path tracer.

Shallow embedding conventions:
* `f64` values are modelled by exact rationals (`ℚ`); decimal literals of the
  source are taken at their decimal value.
* `f64::sqrt` is not definable on `ℚ`, so every definition that the source
  computes with `sqrt` takes an explicit parameter `sq : ℚ → ℚ` standing for
  the square-root routine; theorems that depend on `sq` being a genuine
  square root hypothesise exactly that, at exactly the arguments where the
  source evaluates it.
* `f64::MAX` is modelled by its exact value `2 ^ 1024 - 2 ^ 971`.
* the thread-local random generator is modelled by an oracle state `RNG`:
  a stream `uni` of uniform draws (`rng.next_f64()`) with a cursor `uidx`,
  and a stream `ris` of results of `Vector::random_in_unit_sphere()` with a
  cursor `ridx`.  Consuming a draw advances the corresponding cursor.
* trait objects (`Box<Hitable>`) are modelled by the functions they expose:
  a hitable is a function from the interval bounds to an `Intersection`
  (the ray being fixed for the duration of one scene query).
-/

namespace ST

/-- The 3-component vector of `src/vector.rs` (source name `Vector`). -/
structure Vec3 where
  x : ℚ
  y : ℚ
  z : ℚ
deriving DecidableEq

instance : Add Vec3 where
  add a b := ⟨a.x + b.x, a.y + b.y, a.z + b.z⟩

instance : Sub Vec3 where
  sub a b := ⟨a.x - b.x, a.y - b.y, a.z - b.z⟩

instance : Neg Vec3 where
  neg a := ⟨-a.x, -a.y, -a.z⟩

/-- componentwise `Vector * Vector` (source `impl Mul for Vector`). -/
instance : Mul Vec3 where
  mul a b := ⟨a.x * b.x, a.y * b.y, a.z * b.z⟩

/-- `Vector * f64` (source `impl Mul<f64> for Vector`). -/
instance : HMul Vec3 ℚ Vec3 where
  hMul a s := ⟨a.x * s, a.y * s, a.z * s⟩

/-- `Vector / f64` (source `impl Div<f64> for Vector`). -/
instance : HDiv Vec3 ℚ Vec3 where
  hDiv a s := ⟨a.x / s, a.y / s, a.z / s⟩

namespace Vec3

def squared_length (v : Vec3) : ℚ :=
  v.x * v.x + v.y * v.y + v.z * v.z

/-- `Vector::length`, `sqrt` abstracted as `sq`. -/
def length (sq : ℚ → ℚ) (v : Vec3) : ℚ :=
  sq v.squared_length

/-- `Vector::normalize`: `*self / self.length()`. -/
def normalize (sq : ℚ → ℚ) (v : Vec3) : Vec3 :=
  v / v.length sq

def dot (a b : Vec3) : ℚ :=
  a.x * b.x + a.y * b.y + a.z * b.z

/-- `Vector::reflect`: `*self - *n * 2.0 * self.dot(n)`. -/
def reflect (v n : Vec3) : Vec3 :=
  v - n * (2 : ℚ) * v.dot n

def origin : Vec3 := ⟨0, 0, 0⟩

def zero : Vec3 := ⟨0, 0, 0⟩

def one : Vec3 := ⟨1, 1, 1⟩

end Vec3

/-- `src/ray.rs`: origin, direction and the valid parameter interval. -/
structure Ray where
  origin : Vec3
  direction : Vec3
  t_min : ℚ
  t_max : ℚ
deriving DecidableEq

namespace Ray

/-- `Ray::new` normalizes the direction at construction time. -/
def new (sq : ℚ → ℚ) (o d : Vec3) (t_min t_max : ℚ) : Ray :=
  ⟨o, d.normalize sq, t_min, t_max⟩

/-- `Ray::point_at`. -/
def point_at (r : Ray) (t : ℚ) : Vec3 :=
  r.origin + r.direction * t

end Ray

/-- the material carried by `hitable.rs` records (`Lambertian { albedo }`). -/
structure LambMat where
  albedo : Vec3
deriving DecidableEq

/-- `hitable.rs` `enum Intersection`. -/
inductive Intersection where
  | Miss : Intersection
  | Hit (t : ℚ) (position : Vec3) (normal : Vec3) (material : LambMat) : Intersection
deriving DecidableEq

/-- `hitable.rs` `struct Sphere`. -/
structure SphereH where
  center : Vec3
  radius : ℚ
  material : LambMat
deriving DecidableEq

namespace SphereH

/-- `oc = r.origin - self.center`. -/
def oc (s : SphereH) (r : Ray) : Vec3 := r.origin - s.center

/-- `a = dot(&r.direction, &r.direction)`. -/
def qa (s : SphereH) (r : Ray) : ℚ := r.direction.dot r.direction

/-- `b = dot(&oc, &r.direction)`. -/
def qb (s : SphereH) (r : Ray) : ℚ := (s.oc r).dot r.direction

/-- `c = dot(&oc, &oc) - self.radius * self.radius`. -/
def qc (s : SphereH) (r : Ray) : ℚ := (s.oc r).dot (s.oc r) - s.radius * s.radius

/-- `discriminant = b * b - a * c`. -/
def disc (s : SphereH) (r : Ray) : ℚ := s.qb r * s.qb r - s.qa r * s.qc r

/-- `hitable.rs` `Sphere::hit`: both quadratic roots are tried, strictly
inside `(t_min, t_max)`, the smaller one first. -/
def hit (sq : ℚ → ℚ) (s : SphereH) (r : Ray) (t_min t_max : ℚ) : Intersection :=
  if 0 < s.disc r then
    let temp1 := (-s.qb r - sq (s.disc r)) / s.qa r
    if temp1 < t_max ∧ t_min < temp1 then
      .Hit temp1 (r.point_at temp1) ((r.point_at temp1 - s.center) / s.radius) s.material
    else
      let temp2 := (-s.qb r + sq (s.disc r)) / s.qa r
      if temp2 < t_max ∧ t_min < temp2 then
        .Hit temp2 (r.point_at temp2) ((r.point_at temp2 - s.center) / s.radius) s.material
      else .Miss
  else .Miss

end SphereH

/-- a trait object `Box<Hitable>`, specialised to a fixed query ray: the
function sends the interval bounds `(t_min, t_max)` to the reported
`Intersection`. -/
def HitableObj : Type := ℚ → ℚ → Intersection

/-- the loop body of `HitableList::hit`: `intersect` and `closest_so_far`
are the two mutable locals; every item is queried at the original
`(t_min, t_max)` and the guard `t < closest_so_far` decides retention. -/
def hitLoop : List HitableObj → ℚ → ℚ → Intersection → ℚ → Intersection
  | [], _, _, intersect, _ => intersect
  | i :: rest, t_min, t_max, intersect, closest_so_far =>
    match i t_min t_max with
    | .Hit t position normal material =>
      if t < closest_so_far then
        hitLoop rest t_min t_max (.Hit t position normal material) t
      else
        hitLoop rest t_min t_max intersect closest_so_far
    | .Miss => hitLoop rest t_min t_max intersect closest_so_far

/-- `hitable.rs` `HitableList::hit`. -/
def HitableList.hit (items : List HitableObj) (t_min t_max : ℚ) : Intersection :=
  hitLoop items t_min t_max .Miss t_max

/-- Modelled from the spec: the scan §4.3 describes, which "tests each
primitive against `(t_min, closest_so_far)`" instead of the original
interval.  Used only to compare the source scan against the spec's words. -/
def hitLoopSpec : List HitableObj → ℚ → Intersection → ℚ → Intersection
  | [], _, intersect, _ => intersect
  | i :: rest, t_min, intersect, closest_so_far =>
    match i t_min closest_so_far with
    | .Hit t position normal material =>
      if t < closest_so_far then
        hitLoopSpec rest t_min (.Hit t position normal material) t
      else
        hitLoopSpec rest t_min intersect closest_so_far
    | .Miss => hitLoopSpec rest t_min intersect closest_so_far

/-- Modelled from the spec: nearest-hit scan with interval shrinking, as
§4.3 words it. -/
def HitableList.hitSpec (items : List HitableObj) (t_min t_max : ℚ) : Intersection :=
  hitLoopSpec items t_min .Miss t_max

/-- `src/shape.rs` `const EPSILON: f64 = 0.001`. -/
def EPSILON : ℚ := 1 / 1000

/-- the material policies of `src/material.rs` as a closed sum
(`Lambertian`, `Metallic`, `Dielectric` are the only implementors). -/
inductive Mat where
  | lambertian (albedo : Vec3) : Mat
  | metallic (albedo : Vec3) (glossiness : ℚ) : Mat
  | dielectric (ior : ℚ) : Mat
deriving DecidableEq

/-- `shape.rs` `struct Sphere` (material behind an `Arc<Material>`). -/
structure SphereS where
  center : Vec3
  radius : ℚ
  material : Mat
deriving DecidableEq

/-- `shape.rs` `DifferentialGeometry`.  The source stores a reference to
the hit shape; the only field of a shape the renderer consults through it
is the material, which is recorded here directly. -/
structure DifferentialGeometry where
  t : ℚ
  position : Vec3
  normal : Vec3
  material : Mat
deriving DecidableEq

namespace SphereS

/-- `shape.rs` `Sphere::intersect`.  `b` and the discriminant follow the
un-halved convention (`b = 2·dot(oc, dir)`, `disc = b² − 4c`), the roots
are `(−b ± √disc)·0.5`, and acceptance is tested only against `EPSILON`:
the `t_min`/`t_max` arguments are never read. -/
def intersect (sq : ℚ → ℚ) (s : SphereS) (r : Ray) (t_min t_max : ℚ) :
    Option DifferentialGeometry :=
  let b := ((r.origin - s.center) * (2 : ℚ)).dot r.direction
  let c := (r.origin - s.center).dot (r.origin - s.center) - s.radius * s.radius
  let discriminant := b * b - 4 * c
  if discriminant < 0 then none
  else
    let d := sq discriminant
    let solution_0 := -b + d
    let solution_1 := -b - d
    if EPSILON < solution_1 then
      let t := solution_1 * (1 / 2)
      some ⟨t, r.point_at t, (r.point_at t - s.center) / s.radius, s.material⟩
    else if EPSILON < solution_0 then
      let t := solution_0 * (1 / 2)
      some ⟨t, r.point_at t, (r.point_at t - s.center) / s.radius, s.material⟩
    else none

end SphereS

/-- the loop of `shape.rs` `ShapeAggregate::intersect`: every item is
queried at the original `(t_min, t_max)`, the guard `intersect.t <
closest_t` decides retention. -/
def aggLoop (sq : ℚ → ℚ) (r : Ray) :
    List SphereS → ℚ → ℚ → Option DifferentialGeometry → ℚ → Option DifferentialGeometry
  | [], _, _, closest_intersection, _ => closest_intersection
  | i :: rest, t_min, t_max, closest_intersection, closest_t =>
    match i.intersect sq r t_min t_max with
    | some intersect =>
      if intersect.t < closest_t then
        aggLoop sq r rest t_min t_max (some intersect) intersect.t
      else
        aggLoop sq r rest t_min t_max closest_intersection closest_t
    | none => aggLoop sq r rest t_min t_max closest_intersection closest_t

/-- `shape.rs` `ShapeAggregate::intersect` (items are spheres, the only
`Shape` implementor). -/
def ShapeAggregate.intersect (sq : ℚ → ℚ) (items : List SphereS) (r : Ray)
    (t_min t_max : ℚ) : Option DifferentialGeometry :=
  aggLoop sq r items t_min t_max none t_max

/-- `primitive.rs` `struct Primitive`: one shape paired with one material. -/
structure Primitive where
  shape : SphereS
  material : Mat

/-- `primitive.rs` `Primitive::intersect`: forwards to the shape's test
(which receives the incident ray carrying its own interval) and pairs the
geometry with the primitive's material. -/
def Primitive.intersect (sq : ℚ → ℚ) (p : Primitive) (incident : Ray) :
    Option (DifferentialGeometry × Mat) :=
  match p.shape.intersect sq incident incident.t_min incident.t_max with
  | some dg => some (dg, p.material)
  | none => none

/-- the loop of `scene.rs` `Scene::intersect`: `closest_t` starts at
`incident.t_max`, the guard `dg.t < closest_t` decides retention. -/
def sceneLoop (sq : ℚ → ℚ) (incident : Ray) :
    List Primitive → Option (DifferentialGeometry × Mat) → ℚ →
      Option (DifferentialGeometry × Mat)
  | [], closest_intersection, _ => closest_intersection
  | item :: rest, closest_intersection, closest_t =>
    match item.intersect sq incident with
    | some (dg, mtl) =>
      if dg.t < closest_t then
        sceneLoop sq incident rest (some (dg, mtl)) dg.t
      else
        sceneLoop sq incident rest closest_intersection closest_t
    | none => sceneLoop sq incident rest closest_intersection closest_t

/-- `scene.rs` `Scene::intersect`. -/
def Scene.intersect (sq : ℚ → ℚ) (items : List Primitive) (incident : Ray) :
    Option (DifferentialGeometry × Mat) :=
  sceneLoop sq incident items none incident.t_max

/-- oracle state of the thread-local generator: `uni`/`uidx` give the
stream of `rng.next_f64()` results, `ris`/`ridx` the stream of
`Vector::random_in_unit_sphere()` results. -/
structure RNG where
  uni : ℕ → ℚ
  ris : ℕ → Vec3
  uidx : ℕ
  ridx : ℕ

namespace Mat

/-- the effective refraction ratio of `Dielectric::scatter`: the source
sets `ior = 1/ior` when exiting and then `ior = 1/ior` unconditionally,
leaving `1/n` on entry and `n` on exit. -/
def dielIor (n : ℚ) (incident : Ray) (dg : DifferentialGeometry) : ℚ :=
  if 0 < incident.direction.dot dg.normal then 1 / (1 / n) else 1 / n

/-- the (possibly flipped) normal of `Dielectric::scatter`. -/
def dielOutwardNormal (incident : Ray) (dg : DifferentialGeometry) : Vec3 :=
  if 0 < incident.direction.dot dg.normal then dg.normal * (-1 : ℚ) else dg.normal

/-- `cos_theta_i = incident.direction.dot(&outward_normal) * -1.0`. -/
def dielCosThetaI (incident : Ray) (dg : DifferentialGeometry) : ℚ :=
  incident.direction.dot (dielOutwardNormal incident dg) * (-1)

/-- `cos_theta_t = 1.0 - ior * ior * (1.0 - cos_theta_i * cos_theta_i)`
(despite its name this is the squared cosine of the transmitted angle). -/
def dielCosThetaT (n : ℚ) (incident : Ray) (dg : DifferentialGeometry) : ℚ :=
  1 - dielIor n incident dg * dielIor n incident dg *
    (1 - dielCosThetaI incident dg * dielCosThetaI incident dg)

/-- Schlick's approximation as the source computes it. -/
def dielReflectProb (n : ℚ) (incident : Ray) (dg : DifferentialGeometry) : ℚ :=
  let r0 := (1 - n) / (1 + n) * ((1 - n) / (1 + n))
  r0 + (1 - r0) * (1 - dielCosThetaI incident dg) ^ 5

/-- `material.rs` `Material::scatter`, dispatched over the three policies.
The result is the scattered ray with the attenuation written through the
`&mut` argument, wrapped in `Option` as `main.rs` consumes it; no policy
in the source ever produces the absorption case.  The `Dielectric` branch
evaluates `rng.next_f64()` only when `cos_theta_t > 0.0`, because `&&`
short-circuits. -/
def scatter (sq : ℚ → ℚ) :
    Mat → Ray → DifferentialGeometry → RNG → Option (Ray × Vec3) × RNG
  | .lambertian albedo, incident, dg, rng =>
    let target := dg.position + dg.normal + rng.ris rng.ridx
    (some (Ray.new sq dg.position (target - dg.position) incident.t_min incident.t_max,
           albedo),
     { rng with ridx := rng.ridx + 1 })
  | .metallic albedo glossiness, incident, dg, rng =>
    let reflected := (incident.direction.normalize sq).reflect dg.normal
    (some (Ray.new sq dg.position (reflected + rng.ris rng.ridx * glossiness)
             incident.t_min incident.t_max,
           albedo),
     { rng with ridx := rng.ridx + 1 })
  | .dielectric n, incident, dg, rng =>
    let outward_normal := dielOutwardNormal incident dg
    let ratio := dielIor n incident dg
    let cos_theta_i := dielCosThetaI incident dg
    let cos_theta_t := dielCosThetaT n incident dg
    if 0 < cos_theta_t then
      let draw := rng.uni rng.uidx
      let scattered :=
        if dielReflectProb n incident dg < draw then
          incident.direction * ratio +
            outward_normal * (ratio * cos_theta_i - sq cos_theta_t)
        else incident.direction.reflect outward_normal
      (some (Ray.new sq dg.position scattered incident.t_min incident.t_max, Vec3.one),
       { rng with uidx := rng.uidx + 1 })
    else
      (some (Ray.new sq dg.position (incident.direction.reflect outward_normal)
               incident.t_min incident.t_max,
             Vec3.one),
       rng)

end Mat

/-- `main.rs` `const MAX_DEPTH: u32 = 5`. -/
def MAX_DEPTH : ℕ := 5

/-- `main.rs` `const SAMPLES: u32 = 1`. -/
def SAMPLES : ℕ := 1

/-- `main.rs` `const GAMMA: f64 = 1.0 / 2.2`. -/
def GAMMA : ℚ := 1 / (11 / 5)

/-- `std::f64::MAX`, exactly. -/
def f64MAX : ℚ := 2 ^ 1024 - 2 ^ 971

/-- `main.rs` `trace`.  On a hit below the depth cutoff the scattered path
is traced at `depth + 1` and tinted by the attenuation; at the cutoff the
result is black.  On a miss the background gradient is computed from the
ray direction's `y` (the source calls `normalize` but drops its result, so
the raw component is used; directions are unit length by `Ray::new`).
Well-founded on `MAX_DEPTH - depth`, the code's own termination measure. -/
def trace (sq : ℚ → ℚ) (scene : List SphereS) (r : Ray) (depth : ℕ) (rng : RNG) :
    Vec3 × RNG :=
  match ShapeAggregate.intersect sq scene r (1 / 1000) f64MAX with
  | some dg =>
    if h : depth < MAX_DEPTH then
      match Mat.scatter sq dg.material r dg rng with
      | (some (bounce_ray, attenuation), rng1) =>
        let rec2 := trace sq scene bounce_ray (depth + 1) rng1
        (attenuation * rec2.1, rec2.2)
      | (none, rng1) => (Vec3.zero, rng1)
    else (Vec3.zero, rng)
  | none =>
    let t : ℚ := 1 / 2 * (r.direction.y + 1)
    let white : Vec3 := ⟨1, 1, 1⟩
    let blue : Vec3 := ⟨1 / 2, 7 / 10, 1⟩
    (white * (1 - t) + blue * t, rng)
termination_by MAX_DEPTH - depth
decreasing_by omega

/-- the saturating `as u32` cast applied to an exact (finite) value:
negative values clamp to `0`, values beyond `u32::MAX` clamp to it,
positive values truncate toward zero. -/
def asU32 (q : ℚ) : ℕ :=
  if q < 0 then 0 else min (Int.toNat ⌊q⌋) (2 ^ 32 - 1)

/-- the per-pixel tail of `main.rs` `threaded_color`: average the sample
sum over `SAMPLES`, gamma-correct each channel (`pw` stands for
`powf(GAMMA)`, not definable on `ℚ`), scale by `255.99` and cast to `u32`. -/
def pixelColor (pw : ℚ → ℚ) (col0 : Vec3) : ℕ × ℕ × ℕ :=
  let col := col0 / (SAMPLES : ℚ)
  let gamma_corrected : Vec3 := ⟨pw col.x, pw col.y, pw col.z⟩
  (asU32 (25599 / 100 * gamma_corrected.x),
   asU32 (25599 / 100 * gamma_corrected.y),
   asU32 (25599 / 100 * gamma_corrected.z))

/-- division as `f64` performs it on finite operands, `none` standing for
a non-finite result (`0.0 / 0.0` is NaN, `x / 0.0` is an infinity). -/
def fdiv (a b : ℚ) : Option ℚ :=
  if b = 0 then none else some (a / b)

/-- `Vector::normalize` with `f64` division tracked: `none` exactly when
some component of `*self / self.length()` is non-finite. -/
def Vec3.normalizeChecked (sq : ℚ → ℚ) (v : Vec3) : Option Vec3 :=
  match fdiv v.x (v.length sq), fdiv v.y (v.length sq), fdiv v.z (v.length sq) with
  | some a, some b, some c => some ⟨a, b, c⟩
  | _, _, _ => none

/-- a hitable trait object used to probe the scan order: reports a fixed
hit at `t = 1`. -/
def probe1 : HitableObj := fun _ _ => .Hit 1 ⟨0, 0, 0⟩ ⟨0, 0, 1⟩ ⟨⟨1, 1, 1⟩⟩

/-- a hitable trait object whose response depends on the `t_max` it is
queried with: a hit at `t = 1/2` only when `5 < t_max`.  Distinguishes a
scan that passes the original interval from one that passes the shrunken
interval. -/
def probe2 : HitableObj := fun _ t_max =>
  if 5 < t_max then .Hit (1 / 2) ⟨0, 0, 0⟩ ⟨0, 0, 1⟩ ⟨⟨1, 1, 1⟩⟩ else .Miss

/-- square-root oracle for the concrete traces below: correct at the two
arguments where the renderer evaluates it (`sqrt 1 = 1`, `sqrt 4 = 2`). -/
def wSq : ℚ → ℚ := fun q => if q = 1 then 1 else 2

/-- one diffuse sphere of radius `1` at `(0,0,-5)`. -/
def wScene : List SphereS := [⟨⟨0, 0, -5⟩, 1, .lambertian ⟨1, 1, 1⟩⟩]

/-- a ray from the origin straight down the `-z` axis. -/
def wRay : Ray := ⟨⟨0, 0, 0⟩, ⟨0, 0, -1⟩, 1 / 1000, f64MAX⟩

/-- deterministic oracle streams: every uniform draw is `0`, every
in-sphere sample is the zero vector. -/
def wRng : RNG := ⟨fun _ => 0, fun _ => ⟨0, 0, 0⟩, 0, 0⟩

/-- `wRng` after the one in-sphere sample of a Lambertian scatter. -/
def wRng1 : RNG := ⟨fun _ => 0, fun _ => ⟨0, 0, 0⟩, 0, 1⟩

/-- the geometry record of `wRay` hitting `wScene`. -/
def wDg : DifferentialGeometry := ⟨4, ⟨0, 0, -4⟩, ⟨0, 0, 1⟩, .lambertian ⟨1, 1, 1⟩⟩

/-- the Lambertian bounce ray of that hit under `wRng`. -/
def wBounce : Ray := ⟨⟨0, 0, -4⟩, ⟨0, 0, 1⟩, 1 / 1000, f64MAX⟩

/-! ### Componentwise forms of the vector operations -/

@[simp] lemma Vec3.add_def (a b : Vec3) :
    a + b = ⟨a.x + b.x, a.y + b.y, a.z + b.z⟩ := rfl

@[simp] lemma Vec3.sub_def (a b : Vec3) :
    a - b = ⟨a.x - b.x, a.y - b.y, a.z - b.z⟩ := rfl

@[simp] lemma Vec3.mul_def (a b : Vec3) :
    a * b = ⟨a.x * b.x, a.y * b.y, a.z * b.z⟩ := rfl

@[simp] lemma Vec3.hmul_def (a : Vec3) (s : ℚ) :
    a * s = ⟨a.x * s, a.y * s, a.z * s⟩ := rfl

@[simp] lemma Vec3.hdiv_def (a : Vec3) (s : ℚ) :
    a / s = ⟨a.x / s, a.y / s, a.z / s⟩ := rfl

lemma Vec3.div_one (a : Vec3) : a / (1 : ℚ) = a := by
  cases a; simp

/-! ### Characterization of the `HitableList::hit` loop -/

lemma hitLoop_miss_iff (items : List HitableObj) (t_min t_max : ℚ) :
    ∀ best closest, hitLoop items t_min t_max best closest = .Miss ↔
      (best = .Miss ∧
        ∀ f ∈ items, ∀ t p n m, f t_min t_max = .Hit t p n m → ¬ t < closest) := by
  induction items with
  | nil => intro best closest; simp [hitLoop]
  | cons i rest ih =>
    intro best closest
    simp only [hitLoop]
    rcases h : i t_min t_max with _ | ⟨t, p, n, m⟩
    · simp only [ih, List.forall_mem_cons, h]
      constructor
      · rintro ⟨h1, h2⟩
        exact ⟨h1, fun t p n m hh => Intersection.noConfusion hh, h2⟩
      · rintro ⟨h1, _, h2⟩; exact ⟨h1, h2⟩
    · by_cases ht : t < closest
      · simp only [if_pos ht, ih]
        constructor
        · rintro ⟨h1, _⟩; exact absurd h1 (by simp)
        · rintro ⟨_, h2⟩
          exact absurd ht (h2 i (List.mem_cons_self i rest) t p n m h)
      · simp only [if_neg ht, ih, List.forall_mem_cons, h]
        constructor
        · rintro ⟨h1, h2⟩
          refine ⟨h1, fun t' p' n' m' hh => ?_, h2⟩
          cases hh; exact ht
        · rintro ⟨h1, _, h2⟩; exact ⟨h1, h2⟩

lemma hitLoop_hit_mem (items : List HitableObj) (t_min t_max : ℚ) :
    ∀ best closest t p n m, hitLoop items t_min t_max best closest = .Hit t p n m →
      ((∃ f ∈ items, f t_min t_max = .Hit t p n m) ∧ t < closest) ∨
        best = .Hit t p n m := by
  induction items with
  | nil => intro best closest t p n m h; exact Or.inr h
  | cons i rest ih =>
    intro best closest t p n m hres
    simp only [hitLoop] at hres
    rcases h : i t_min t_max with _ | ⟨t0, p0, n0, m0⟩ <;> simp only [h] at hres
    · rcases ih best closest t p n m hres with ⟨⟨f, hf, he⟩, hlt⟩ | hb
      · exact Or.inl ⟨⟨f, List.mem_cons_of_mem i hf, he⟩, hlt⟩
      · exact Or.inr hb
    · by_cases ht : t0 < closest
      · rw [if_pos ht] at hres
        rcases ih _ _ t p n m hres with ⟨⟨f, hf, he⟩, hlt⟩ | hb
        · exact Or.inl ⟨⟨f, List.mem_cons_of_mem i hf, he⟩, lt_trans hlt ht⟩
        · refine Or.inl ⟨⟨i, List.mem_cons_self i rest, ?_⟩, ?_⟩
          · rw [h, ← hb]
          · cases hb; exact ht
      · rw [if_neg ht] at hres
        rcases ih best closest t p n m hres with ⟨⟨f, hf, he⟩, hlt⟩ | hb
        · exact Or.inl ⟨⟨f, List.mem_cons_of_mem i hf, he⟩, hlt⟩
        · exact Or.inr hb

lemma hitLoop_hit_min (items : List HitableObj) (t_min t_max : ℚ) :
    ∀ best closest, (∀ t0 p0 n0 m0, best = .Hit t0 p0 n0 m0 → t0 = closest) →
      ∀ t p n m, hitLoop items t_min t_max best closest = .Hit t p n m →
        t ≤ closest ∧
          ∀ f ∈ items, ∀ t' p' n' m', f t_min t_max = .Hit t' p' n' m' →
            t' < closest → t ≤ t' := by
  induction items with
  | nil =>
    intro best closest hinv t p n m h
    exact ⟨le_of_eq (hinv t p n m h), by simp⟩
  | cons i rest ih =>
    intro best closest hinv t p n m hres
    simp only [hitLoop] at hres
    rcases h : i t_min t_max with _ | ⟨t0, p0, n0, m0⟩ <;> simp only [h] at hres
    · obtain ⟨hle, hall⟩ := ih best closest hinv t p n m hres
      refine ⟨hle, ?_⟩
      intro f hf t' p' n' m' he hlt
      rcases List.mem_cons.mp hf with rfl | hf'
      · rw [h] at he; cases he
      · exact hall f hf' t' p' n' m' he hlt
    · by_cases ht : t0 < closest
      · rw [if_pos ht] at hres
        obtain ⟨hle, hall⟩ := ih (.Hit t0 p0 n0 m0) t0
          (by intro a b c d hh; cases hh; rfl) t p n m hres
        refine ⟨le_trans hle (le_of_lt ht), ?_⟩
        intro f hf t' p' n' m' he hlt
        rcases List.mem_cons.mp hf with rfl | hf'
        · rw [h] at he; cases he; exact hle
        · by_cases hlt0 : t' < t0
          · exact hall f hf' t' p' n' m' he hlt0
          · exact le_trans hle (not_lt.mp hlt0)
      · rw [if_neg ht] at hres
        obtain ⟨hle, hall⟩ := ih best closest hinv t p n m hres
        refine ⟨hle, ?_⟩
        intro f hf t' p' n' m' he hlt
        rcases List.mem_cons.mp hf with rfl | hf'
        · rw [h] at he; cases he; exact absurd hlt ht
        · exact hall f hf' t' p' n' m' he hlt

/-- the loop of `HitableList::hit` reads each item only through its
response at the original interval `(t_min, t_max)`. -/
lemma hitLoop_congr (t_min t_max : ℚ) :
    ∀ items items' : List HitableObj,
      items.map (fun f => f t_min t_max) = items'.map (fun f => f t_min t_max) →
      ∀ best closest, hitLoop items t_min t_max best closest =
        hitLoop items' t_min t_max best closest := by
  intro items
  induction items with
  | nil =>
    intro items' hmap best closest
    have : items' = [] := by
      cases items' with
      | nil => rfl
      | cons a l => simp at hmap
    rw [this]
  | cons i rest ih =>
    intro items' hmap best closest
    cases items' with
    | nil => simp at hmap
    | cons i' rest' =>
      simp only [List.map_cons, List.cons.injEq] at hmap
      obtain ⟨h1, h2⟩ := hmap
      simp only [hitLoop, h1]
      rcases h' : i' t_min t_max with _ | ⟨t, p, n, m⟩ <;> simp only [h']
      · exact ih rest' h2 best closest
      · by_cases ht : t < closest
        · rw [if_pos ht, if_pos ht]; exact ih rest' h2 _ _
        · rw [if_neg ht, if_neg ht]; exact ih rest' h2 best closest

/-! ### Characterization of the `Scene::intersect` loop -/

lemma sceneLoop_none_iff (sq : ℚ → ℚ) (incident : Ray) (items : List Primitive) :
    ∀ best closest, sceneLoop sq incident items best closest = none ↔
      (best = none ∧
        ∀ p ∈ items, ∀ dg m, p.intersect sq incident = some (dg, m) →
          ¬ dg.t < closest) := by
  induction items with
  | nil => intro best closest; simp [sceneLoop]
  | cons i rest ih =>
    intro best closest
    simp only [sceneLoop]
    rcases h : i.intersect sq incident with _ | ⟨dg0, m0⟩
    · simp only [ih, List.forall_mem_cons, h]
      constructor
      · rintro ⟨h1, h2⟩
        exact ⟨h1, fun dg m hh => Option.noConfusion hh, h2⟩
      · rintro ⟨h1, _, h2⟩; exact ⟨h1, h2⟩
    · by_cases ht : dg0.t < closest
      · simp only [if_pos ht, ih]
        constructor
        · rintro ⟨h1, _⟩; exact absurd h1 (by simp)
        · rintro ⟨_, h2⟩
          exact absurd ht (h2 i (List.mem_cons_self i rest) dg0 m0 h)
      · simp only [if_neg ht, ih, List.forall_mem_cons, h]
        constructor
        · rintro ⟨h1, h2⟩
          refine ⟨h1, fun dg m hh => ?_, h2⟩
          cases hh; exact ht
        · rintro ⟨h1, _, h2⟩; exact ⟨h1, h2⟩

lemma sceneLoop_some_mem (sq : ℚ → ℚ) (incident : Ray) (items : List Primitive) :
    ∀ best closest dg m, sceneLoop sq incident items best closest = some (dg, m) →
      ((∃ p ∈ items, p.intersect sq incident = some (dg, m)) ∧ dg.t < closest) ∨
        best = some (dg, m) := by
  induction items with
  | nil => intro best closest dg m h; exact Or.inr h
  | cons i rest ih =>
    intro best closest dg m hres
    simp only [sceneLoop] at hres
    rcases h : i.intersect sq incident with _ | ⟨dg0, m0⟩ <;> simp only [h] at hres
    · rcases ih best closest dg m hres with ⟨⟨p, hp, he⟩, hlt⟩ | hb
      · exact Or.inl ⟨⟨p, List.mem_cons_of_mem i hp, he⟩, hlt⟩
      · exact Or.inr hb
    · by_cases ht : dg0.t < closest
      · rw [if_pos ht] at hres
        rcases ih _ _ dg m hres with ⟨⟨p, hp, he⟩, hlt⟩ | hb
        · exact Or.inl ⟨⟨p, List.mem_cons_of_mem i hp, he⟩, lt_trans hlt ht⟩
        · refine Or.inl ⟨⟨i, List.mem_cons_self i rest, ?_⟩, ?_⟩
          · rw [h, ← hb]
          · cases hb; exact ht
      · rw [if_neg ht] at hres
        rcases ih best closest dg m hres with ⟨⟨p, hp, he⟩, hlt⟩ | hb
        · exact Or.inl ⟨⟨p, List.mem_cons_of_mem i hp, he⟩, hlt⟩
        · exact Or.inr hb

lemma sceneLoop_some_min (sq : ℚ → ℚ) (incident : Ray) (items : List Primitive) :
    ∀ best closest, (∀ dg0 m0, best = some (dg0, m0) → dg0.t = closest) →
      ∀ dg m, sceneLoop sq incident items best closest = some (dg, m) →
        dg.t ≤ closest ∧
          ∀ p ∈ items, ∀ dg' m', p.intersect sq incident = some (dg', m') →
            dg'.t < closest → dg.t ≤ dg'.t := by
  induction items with
  | nil =>
    intro best closest hinv dg m h
    exact ⟨le_of_eq (hinv dg m h), by simp⟩
  | cons i rest ih =>
    intro best closest hinv dg m hres
    simp only [sceneLoop] at hres
    rcases h : i.intersect sq incident with _ | ⟨dg0, m0⟩ <;> simp only [h] at hres
    · obtain ⟨hle, hall⟩ := ih best closest hinv dg m hres
      refine ⟨hle, ?_⟩
      intro p hp dg' m' he hlt
      rcases List.mem_cons.mp hp with rfl | hp'
      · rw [h] at he; cases he
      · exact hall p hp' dg' m' he hlt
    · by_cases ht : dg0.t < closest
      · rw [if_pos ht] at hres
        obtain ⟨hle, hall⟩ := ih (some (dg0, m0)) dg0.t
          (by intro a b hh; cases hh; rfl) dg m hres
        refine ⟨le_trans hle (le_of_lt ht), ?_⟩
        intro p hp dg' m' he hlt
        rcases List.mem_cons.mp hp with rfl | hp'
        · rw [h] at he; cases he; exact hle
        · by_cases hlt0 : dg'.t < dg0.t
          · exact hall p hp' dg' m' he hlt0
          · exact le_trans hle (not_lt.mp hlt0)
      · rw [if_neg ht] at hres
        obtain ⟨hle, hall⟩ := ih best closest hinv dg m hres
        refine ⟨hle, ?_⟩
        intro p hp dg' m' he hlt
        rcases List.mem_cons.mp hp with rfl | hp'
        · rw [h] at he; cases he; exact absurd hlt ht
        · exact hall p hp' dg' m' he hlt

/-- a hit reported by `hitable.rs` `Sphere::hit` lies strictly inside the
queried interval. -/
lemma SphereH.hit_interval (sq : ℚ → ℚ) (s : SphereH) (r : Ray) (t_min t_max : ℚ)
    (t : ℚ) (p n : Vec3) (m : LambMat)
    (h : SphereH.hit sq s r t_min t_max = .Hit t p n m) :
    t_min < t ∧ t < t_max := by
  simp only [SphereH.hit] at h
  split_ifs at h with h1 h2 h3
  · cases h; exact ⟨h2.2, h2.1⟩
  · cases h; exact ⟨h3.2, h3.1⟩

/-! ### Claims -/

/-- C10: the result of `shape.rs` `Sphere::intersect` is independent of
its `t_min`/`t_max` arguments — root acceptance is tested only against
the constant `EPSILON` — and consequently for some ray and some `t_max`
it returns a hit whose `t` exceeds that `t_max` (here `t = 4` against
`t_max = 1`). -/
theorem claim10_interval_ignored :
    (∀ (sq : ℚ → ℚ) (s : SphereS) (r : Ray) (t_min t_max u_min u_max : ℚ),
      SphereS.intersect sq s r t_min t_max = SphereS.intersect sq s r u_min u_max)
    ∧ (SphereS.intersect (fun _ => 2) ⟨⟨0, 0, 0⟩, 1, .lambertian ⟨1, 1, 1⟩⟩
         ⟨⟨0, 0, 5⟩, ⟨0, 0, -1⟩, 1 / 1000, 1⟩ (1 / 1000) 1
       = some ⟨4, ⟨0, 0, 1⟩, ⟨0, 0, 1⟩, .lambertian ⟨1, 1, 1⟩⟩
       ∧ (1 : ℚ) < 4) := by
  refine ⟨fun sq s r t_min t_max u_min u_max => rfl, ?_, by norm_num⟩
  norm_num [SphereS.intersect, EPSILON, Ray.point_at, Vec3.dot]

/-- C3: `hitable.rs` `Sphere::hit` misses when the discriminant is not
positive, otherwise accepts the smaller root `(−b − √disc)/a` strictly
inside `(t_min, t_max)`, else the larger root `(−b + √disc)/a` under the
same strict test, else misses; an accepted hit reports normal
`(hit_position − center) / radius`.  `sq` is hypothesised to be a genuine
square root at the discriminant, and `a = dot(dir, dir)` is positive
(true of every ray, whose direction is normalized at construction). -/
theorem claim3_sphere_hit (sq : ℚ → ℚ) (s : SphereH) (r : Ray) (t_min t_max : ℚ)
    (ha : 0 < s.qa r)
    (hs : 0 < s.disc r → 0 ≤ sq (s.disc r) ∧ sq (s.disc r) * sq (s.disc r) = s.disc r) :
    (s.disc r ≤ 0 → SphereH.hit sq s r t_min t_max = .Miss)
    ∧ (0 < s.disc r →
        (-s.qb r - sq (s.disc r)) / s.qa r ≤ (-s.qb r + sq (s.disc r)) / s.qa r
        ∧ (t_min < (-s.qb r - sq (s.disc r)) / s.qa r ∧
             (-s.qb r - sq (s.disc r)) / s.qa r < t_max →
            SphereH.hit sq s r t_min t_max =
              .Hit ((-s.qb r - sq (s.disc r)) / s.qa r)
                (r.point_at ((-s.qb r - sq (s.disc r)) / s.qa r))
                ((r.point_at ((-s.qb r - sq (s.disc r)) / s.qa r) - s.center) / s.radius)
                s.material)
        ∧ (¬(t_min < (-s.qb r - sq (s.disc r)) / s.qa r ∧
               (-s.qb r - sq (s.disc r)) / s.qa r < t_max) →
            t_min < (-s.qb r + sq (s.disc r)) / s.qa r ∧
              (-s.qb r + sq (s.disc r)) / s.qa r < t_max →
            SphereH.hit sq s r t_min t_max =
              .Hit ((-s.qb r + sq (s.disc r)) / s.qa r)
                (r.point_at ((-s.qb r + sq (s.disc r)) / s.qa r))
                ((r.point_at ((-s.qb r + sq (s.disc r)) / s.qa r) - s.center) / s.radius)
                s.material)
        ∧ (¬(t_min < (-s.qb r - sq (s.disc r)) / s.qa r ∧
               (-s.qb r - sq (s.disc r)) / s.qa r < t_max) →
            ¬(t_min < (-s.qb r + sq (s.disc r)) / s.qa r ∧
               (-s.qb r + sq (s.disc r)) / s.qa r < t_max) →
            SphereH.hit sq s r t_min t_max = .Miss)) := by
  constructor
  · intro hle
    simp only [SphereH.hit, if_neg (not_lt.mpr hle)]
  · intro hpos
    refine ⟨?_, ?_, ?_, ?_⟩
    · exact (div_le_div_iff_of_pos_right ha).mpr (by linarith [(hs hpos).1])
    · intro hin
      simp only [SphereH.hit, if_pos hpos]
      rw [if_pos ⟨hin.2, hin.1⟩]
    · intro hnot hin
      simp only [SphereH.hit, if_pos hpos]
      rw [if_neg (fun hc => hnot ⟨hc.2, hc.1⟩), if_pos ⟨hin.2, hin.1⟩]
    · intro hnot1 hnot2
      simp only [SphereH.hit, if_pos hpos]
      rw [if_neg (fun hc => hnot1 ⟨hc.2, hc.1⟩), if_neg (fun hc => hnot2 ⟨hc.2, hc.1⟩)]

/-- concrete instance of `claim3_sphere_hit`: the unit sphere at the
origin, hit from `(0,0,3)` along `-z`; discriminant `1`, smaller root
accepted at `t = 2` with normal `(0,0,1)`. -/
theorem claim3_witness :
    SphereH.hit (fun _ => 1) ⟨⟨0, 0, 0⟩, 1, ⟨⟨1, 1, 1⟩⟩⟩
        ⟨⟨0, 0, 3⟩, ⟨0, 0, -1⟩, 1 / 1000, 100⟩ (1 / 1000) 100
      = .Hit 2 ⟨0, 0, 1⟩ ⟨0, 0, 1⟩ ⟨⟨1, 1, 1⟩⟩ := by
  have hd : (⟨⟨0, 0, 0⟩, 1, ⟨⟨1, 1, 1⟩⟩⟩ : SphereH).disc
      ⟨⟨0, 0, 3⟩, ⟨0, 0, -1⟩, 1 / 1000, 100⟩ = 1 := by
    norm_num [SphereH.disc, SphereH.qa, SphereH.qb, SphereH.qc, SphereH.oc, Vec3.dot]
  have hq : (⟨⟨0, 0, 0⟩, 1, ⟨⟨1, 1, 1⟩⟩⟩ : SphereH).qa
      ⟨⟨0, 0, 3⟩, ⟨0, 0, -1⟩, 1 / 1000, 100⟩ = 1 := by
    norm_num [SphereH.qa, Vec3.dot]
  have hb : (⟨⟨0, 0, 0⟩, 1, ⟨⟨1, 1, 1⟩⟩⟩ : SphereH).qb
      ⟨⟨0, 0, 3⟩, ⟨0, 0, -1⟩, 1 / 1000, 100⟩ = -3 := by
    norm_num [SphereH.qb, SphereH.oc, Vec3.dot]
  have h := claim3_sphere_hit (fun _ => 1) ⟨⟨0, 0, 0⟩, 1, ⟨⟨1, 1, 1⟩⟩⟩
    ⟨⟨0, 0, 3⟩, ⟨0, 0, -1⟩, 1 / 1000, 100⟩ (1 / 1000) 100
    (by rw [hq]; norm_num) (by intro _; rw [hd]; norm_num)
  refine ((h.2 (by rw [hd]; norm_num)).2.1 ?_).trans ?_
  · rw [hd, hq, hb]; norm_num
  · rw [hd, hq, hb]
    norm_num [Ray.point_at]

/-- C9: `Vector::normalize` applied to the zero vector divides every
component `0.0 / 0.0`, a NaN: in the tracked model the result is the
non-finite marker, not a sentinel value and not an error signal.  The
hypothesis pins `sq` to the true square root at the only evaluated
argument (`sqrt 0 = 0`). -/
theorem claim9_normalize_nan (sq : ℚ → ℚ) (h0 : sq 0 = 0) :
    Vec3.normalizeChecked sq ⟨0, 0, 0⟩ = none := by
  simp [Vec3.normalizeChecked, Vec3.length, Vec3.squared_length, h0, fdiv]

/-- concrete instance of `claim9_normalize_nan`. -/
theorem claim9_witness :
    Vec3.normalizeChecked (fun _ => 0) ⟨0, 0, 0⟩ = none :=
  claim9_normalize_nan (fun _ => 0) rfl

/-- C1 (amended): for `HitableList::hit` over the repository's sphere
primitives the nearest-hit contract holds exactly as claimed: a hit is
returned precisely when some sphere reports one (sphere reports always
lie strictly inside the queried interval), the returned hit lies inside
`(t_min, t_max)`, is one of the reports, and its `t` is minimal among all
reports.  For `Scene::intersect` only the `t_max` half survives: a hit is
returned exactly when some primitive reports one with `t < t_max`, and
the returned `t` is minimal among such reports — the `t_min` bound is not
enforced because `shape.rs` `Sphere::intersect` ignores it. -/
theorem claim1_nearest_hit :
    (∀ (sq : ℚ → ℚ) (spheres : List SphereH) (r : Ray) (t_min t_max : ℚ),
      (HitableList.hit (spheres.map fun s a b => SphereH.hit sq s r a b) t_min t_max
          = .Miss ↔
        ∀ s ∈ spheres, SphereH.hit sq s r t_min t_max = .Miss)
      ∧ ∀ t p n m,
          HitableList.hit (spheres.map fun s a b => SphereH.hit sq s r a b) t_min t_max
            = .Hit t p n m →
          (t_min < t ∧ t < t_max)
          ∧ (∃ s ∈ spheres, SphereH.hit sq s r t_min t_max = .Hit t p n m)
          ∧ ∀ s ∈ spheres, ∀ t' p' n' m',
              SphereH.hit sq s r t_min t_max = .Hit t' p' n' m' → t ≤ t')
    ∧ (∀ (sq : ℚ → ℚ) (prims : List Primitive) (incident : Ray),
      (Scene.intersect sq prims incident = none ↔
        ∀ p ∈ prims, ∀ dg m, Primitive.intersect sq p incident = some (dg, m) →
          ¬ dg.t < incident.t_max)
      ∧ ∀ dg m, Scene.intersect sq prims incident = some (dg, m) →
          dg.t < incident.t_max
          ∧ (∃ p ∈ prims, Primitive.intersect sq p incident = some (dg, m))
          ∧ ∀ p ∈ prims, ∀ dg' m',
              Primitive.intersect sq p incident = some (dg', m') →
              dg'.t < incident.t_max → dg.t ≤ dg'.t) := by
  constructor
  · intro sq spheres r t_min t_max
    constructor
    · rw [HitableList.hit, hitLoop_miss_iff]
      simp only [true_and]
      constructor
      · intro hall s hs
        rcases hh : SphereH.hit sq s r t_min t_max with _ | ⟨t, p, n, m⟩
        · rfl
        · have hmem : (fun a b => SphereH.hit sq s r a b) ∈
              spheres.map fun s a b => SphereH.hit sq s r a b :=
            List.mem_map_of_mem _ hs
          have := hall _ hmem t p n m hh
          exact absurd (SphereH.hit_interval sq s r t_min t_max t p n m hh).2 this
      · intro hall f hf t p n m hh
        obtain ⟨s, hs, rfl⟩ := List.mem_map.mp hf
        have hh' : SphereH.hit sq s r t_min t_max = .Hit t p n m := hh
        rw [hall s hs] at hh'
        exact Intersection.noConfusion hh'
    · intro t p n m hres
      rw [HitableList.hit] at hres
      have hmem := hitLoop_hit_mem _ t_min t_max .Miss t_max t p n m hres
      rcases hmem with ⟨⟨f, hf, he⟩, _⟩ | hb
      swap
      · exact Intersection.noConfusion hb
      obtain ⟨s, hs, rfl⟩ := List.mem_map.mp hf
      have hint := SphereH.hit_interval sq s r t_min t_max t p n m he
      have hmin := hitLoop_hit_min _ t_min t_max .Miss t_max
        (fun a b c d hh => Intersection.noConfusion hh) t p n m hres
      refine ⟨hint, ⟨s, hs, he⟩, ?_⟩
      intro s' hs' t' p' n' m' he'
      have hint' := SphereH.hit_interval sq s' r t_min t_max t' p' n' m' he'
      exact hmin.2 _ (List.mem_map_of_mem _ hs') t' p' n' m' he' hint'.2
  · intro sq prims incident
    constructor
    · rw [Scene.intersect, sceneLoop_none_iff]
      simp only [true_and]
    · intro dg m hres
      rw [Scene.intersect] at hres
      have hmem := sceneLoop_some_mem sq incident prims none incident.t_max dg m hres
      rcases hmem with ⟨⟨p, hp, he⟩, hlt⟩ | hb
      swap
      · exact Option.noConfusion hb
      have hmin := sceneLoop_some_min sq incident prims none incident.t_max
        (fun a b hh => Option.noConfusion hh) dg m hres
      exact ⟨hlt, ⟨p, hp, he⟩, hmin.2⟩

/-- counterexample to C1 as stated: one diffuse sphere at `(0,0,-5)`,
queried by a ray whose interval is `(6, f64::MAX)`.  The only report the
primitive makes is the hit at `t = 4`, which is not inside the interval
(`4 < t_min = 6`), yet `Scene::intersect` returns it: `shape.rs`
`Sphere::intersect` never checks `t_min`. -/
theorem claim1_counterexample :
    Scene.intersect (fun _ => 2)
        [⟨⟨⟨0, 0, -5⟩, 1, .lambertian ⟨1, 1, 1⟩⟩, .lambertian ⟨1, 1, 1⟩⟩]
        ⟨⟨0, 0, 0⟩, ⟨0, 0, -1⟩, 6, f64MAX⟩
      = some (⟨4, ⟨0, 0, -4⟩, ⟨0, 0, 1⟩, .lambertian ⟨1, 1, 1⟩⟩, .lambertian ⟨1, 1, 1⟩)
    ∧ Primitive.intersect (fun _ => 2)
        ⟨⟨⟨0, 0, -5⟩, 1, .lambertian ⟨1, 1, 1⟩⟩, .lambertian ⟨1, 1, 1⟩⟩
        ⟨⟨0, 0, 0⟩, ⟨0, 0, -1⟩, 6, f64MAX⟩
      = some (⟨4, ⟨0, 0, -4⟩, ⟨0, 0, 1⟩, .lambertian ⟨1, 1, 1⟩⟩, .lambertian ⟨1, 1, 1⟩)
    ∧ ¬ ((6 : ℚ) < 4) := by
  have hprim : Primitive.intersect (fun _ => 2)
      ⟨⟨⟨0, 0, -5⟩, 1, .lambertian ⟨1, 1, 1⟩⟩, .lambertian ⟨1, 1, 1⟩⟩
      ⟨⟨0, 0, 0⟩, ⟨0, 0, -1⟩, 6, f64MAX⟩
      = some (⟨4, ⟨0, 0, -4⟩, ⟨0, 0, 1⟩, .lambertian ⟨1, 1, 1⟩⟩, .lambertian ⟨1, 1, 1⟩) := by
    rw [Primitive.intersect]
    have : SphereS.intersect (fun _ => 2) ⟨⟨0, 0, -5⟩, 1, .lambertian ⟨1, 1, 1⟩⟩
        ⟨⟨0, 0, 0⟩, ⟨0, 0, -1⟩, 6, f64MAX⟩ 6 f64MAX
        = some ⟨4, ⟨0, 0, -4⟩, ⟨0, 0, 1⟩, .lambertian ⟨1, 1, 1⟩⟩ := by
      norm_num [SphereS.intersect, EPSILON, Ray.point_at, Vec3.dot]
    rw [this]
  refine ⟨?_, hprim, by norm_num⟩
  rw [Scene.intersect, sceneLoop, hprim]
  norm_num [sceneLoop, f64MAX]

/-- concrete instance of `claim1_nearest_hit`: two spheres on the `-z`
axis hit at `t = 4` and `t = 2`; the scan returns the `t = 2` hit, inside
the interval, reported by a member sphere, minimal among all reports; and
the scene-side query at the `t_min = 6` ray still reports `t = 4 <
f64::MAX` as minimal among sub-`t_max` reports. -/
theorem claim1_witness :
    ((1 / 1000 : ℚ) < 2 ∧ (2 : ℚ) < 100)
    ∧ (∃ s ∈ [(⟨⟨0, 0, -5⟩, 1, ⟨⟨1, 1, 1⟩⟩⟩ : SphereH), ⟨⟨0, 0, -3⟩, 1, ⟨⟨1, 1, 1⟩⟩⟩],
        SphereH.hit (fun _ => 1) s ⟨⟨0, 0, 0⟩, ⟨0, 0, -1⟩, 1 / 1000, 100⟩ (1 / 1000) 100
          = .Hit 2 ⟨0, 0, -2⟩ ⟨0, 0, 1⟩ ⟨⟨1, 1, 1⟩⟩)
    ∧ (∀ s ∈ [(⟨⟨0, 0, -5⟩, 1, ⟨⟨1, 1, 1⟩⟩⟩ : SphereH), ⟨⟨0, 0, -3⟩, 1, ⟨⟨1, 1, 1⟩⟩⟩],
        ∀ t' p' n' m',
          SphereH.hit (fun _ => 1) s ⟨⟨0, 0, 0⟩, ⟨0, 0, -1⟩, 1 / 1000, 100⟩ (1 / 1000) 100
            = .Hit t' p' n' m' → (2 : ℚ) ≤ t') := by
  have h := (claim1_nearest_hit.1 (fun _ => 1)
    [⟨⟨0, 0, -5⟩, 1, ⟨⟨1, 1, 1⟩⟩⟩, ⟨⟨0, 0, -3⟩, 1, ⟨⟨1, 1, 1⟩⟩⟩]
    ⟨⟨0, 0, 0⟩, ⟨0, 0, -1⟩, 1 / 1000, 100⟩ (1 / 1000) 100).2
    2 ⟨0, 0, -2⟩ ⟨0, 0, 1⟩ ⟨⟨1, 1, 1⟩⟩ ?_
  · exact ⟨h.1, h.2.1, h.2.2⟩
  · have h1 : SphereH.hit (fun _ => 1) ⟨⟨0, 0, -5⟩, 1, ⟨⟨1, 1, 1⟩⟩⟩
        ⟨⟨0, 0, 0⟩, ⟨0, 0, -1⟩, 1 / 1000, 100⟩ (1 / 1000) 100
        = .Hit 4 ⟨0, 0, -4⟩ ⟨0, 0, 1⟩ ⟨⟨1, 1, 1⟩⟩ := by
      norm_num [SphereH.hit, SphereH.disc, SphereH.qa, SphereH.qb, SphereH.qc,
        SphereH.oc, Vec3.dot, Ray.point_at]
    have h2 : SphereH.hit (fun _ => 1) ⟨⟨0, 0, -3⟩, 1, ⟨⟨1, 1, 1⟩⟩⟩
        ⟨⟨0, 0, 0⟩, ⟨0, 0, -1⟩, 1 / 1000, 100⟩ (1 / 1000) 100
        = .Hit 2 ⟨0, 0, -2⟩ ⟨0, 0, 1⟩ ⟨⟨1, 1, 1⟩⟩ := by
      norm_num [SphereH.hit, SphereH.disc, SphereH.qa, SphereH.qb, SphereH.qc,
        SphereH.oc, Vec3.dot, Ray.point_at]
    rw [HitableList.hit, List.map_cons, List.map_cons, List.map_nil]
    norm_num [hitLoop, h1, h2]

/-- counterexample to C2 as stated: the source scan queries each item at
the original `(t_min, t_max)`, not at `(t_min, closest_so_far)`.  With
`probe1` (constant hit at `t = 1`) followed by `probe2` (hit at `t = 1/2`
only when queried with `5 < t_max`), the source scan returns `t = 1/2`
while the spec-described shrunken-interval scan returns `t = 1`: had the
second item been tested against the shrunken interval `(0, 1)` it would
have reported `Miss`. -/
theorem claim2_counterexample :
    HitableList.hit [probe1, probe2] 0 10
      = .Hit (1 / 2) ⟨0, 0, 0⟩ ⟨0, 0, 1⟩ ⟨⟨1, 1, 1⟩⟩
    ∧ HitableList.hitSpec [probe1, probe2] 0 10
      = .Hit 1 ⟨0, 0, 0⟩ ⟨0, 0, 1⟩ ⟨⟨1, 1, 1⟩⟩
    ∧ HitableList.hit [probe1, probe2] 0 10
      ≠ HitableList.hitSpec [probe1, probe2] 0 10 := by
  have h1 : HitableList.hit [probe1, probe2] 0 10
      = .Hit (1 / 2) ⟨0, 0, 0⟩ ⟨0, 0, 1⟩ ⟨⟨1, 1, 1⟩⟩ := by
    rw [HitableList.hit]
    norm_num [hitLoop, probe1, probe2]
  have h2 : HitableList.hitSpec [probe1, probe2] 0 10
      = .Hit 1 ⟨0, 0, 0⟩ ⟨0, 0, 1⟩ ⟨⟨1, 1, 1⟩⟩ := by
    rw [HitableList.hitSpec]
    norm_num [hitLoopSpec, probe1, probe2]
  refine ⟨h1, h2, ?_⟩
  rw [h1, h2]
  intro hcontra
  have := congrArg (fun i => match i with | .Hit t _ _ _ => t | .Miss => 0) hcontra
  norm_num at this

/-- C2 (amended): the scan is a linear pass keeping `closest_so_far`
(initialized to the caller's `t_max`), but each primitive is tested
against the ORIGINAL `(t_min, t_max)`; the shrinking acts only as the
retention guard `t < closest_so_far`.  Hence (i) the result depends on
each item only through its single response at `(t_min, t_max)`, and
(ii) a returned hit is one of those responses, has `t < t_max`, and its
`t` is minimal among all responses below `t_max`. -/
theorem claim2_scan_amended :
    (∀ (items items' : List HitableObj) (t_min t_max : ℚ),
      items.map (fun f => f t_min t_max) = items'.map (fun f => f t_min t_max) →
      HitableList.hit items t_min t_max = HitableList.hit items' t_min t_max)
    ∧ (∀ (items : List HitableObj) (t_min t_max t : ℚ) (p n : Vec3) (m : LambMat),
        HitableList.hit items t_min t_max = .Hit t p n m →
        (∃ f ∈ items, f t_min t_max = .Hit t p n m) ∧ t < t_max ∧
          ∀ f ∈ items, ∀ t' p' n' m', f t_min t_max = .Hit t' p' n' m' →
            t' < t_max → t ≤ t') := by
  constructor
  · intro items items' t_min t_max hmap
    exact hitLoop_congr t_min t_max items items' hmap .Miss t_max
  · intro items t_min t_max t p n m hres
    rw [HitableList.hit] at hres
    have hmem := hitLoop_hit_mem items t_min t_max .Miss t_max t p n m hres
    rcases hmem with ⟨hex, hlt⟩ | hb
    swap
    · exact Intersection.noConfusion hb
    have hmin := hitLoop_hit_min items t_min t_max .Miss t_max
      (fun a b c d hh => Intersection.noConfusion hh) t p n m hres
    exact ⟨hex, hlt, hmin.2⟩

/-- concrete instance of `claim2_scan_amended`: `probe2` and the constant
object answering its `(0,10)` response produce the same scan result, and
the scan of `[probe1]` is its own minimal sub-`t_max` report. -/
theorem claim2_witness :
    HitableList.hit [probe2] 0 10
      = HitableList.hit [fun _ _ => .Hit (1 / 2) ⟨0, 0, 0⟩ ⟨0, 0, 1⟩ ⟨⟨1, 1, 1⟩⟩] 0 10
    ∧ ((∃ f ∈ [probe1], f 0 10 = .Hit 1 ⟨0, 0, 0⟩ ⟨0, 0, 1⟩ ⟨⟨1, 1, 1⟩⟩)
        ∧ (1 : ℚ) < 10 ∧
        ∀ f ∈ [probe1], ∀ t' p' n' m', f 0 10 = .Hit t' p' n' m' →
          t' < 10 → (1 : ℚ) ≤ t') := by
  constructor
  · refine claim2_scan_amended.1 _ _ 0 10 ?_
    norm_num [probe2]
  · refine claim2_scan_amended.2 [probe1] 0 10 1 ⟨0, 0, 0⟩ ⟨0, 0, 1⟩ ⟨⟨1, 1, 1⟩⟩ ?_
    rw [HitableList.hit]
    norm_num [hitLoop, probe1]

/-- C4: whenever the scene query misses, `trace` returns exactly the
background gradient `lerp(white, sky-blue, t)` with
`t = 0.5·(normalize(direction).y + 1)`, and leaves the random state
untouched; in particular it does so on the empty scene, which always
misses.  The direction is a unit vector (`Ray::new` normalizes), which is
what lets the claim's `normalize(direction)` coincide with the raw
direction the source uses after discarding the result of its `normalize`
call. -/
theorem claim4_background (sq : ℚ → ℚ) (scene : List SphereS) (r : Ray) (depth : ℕ)
    (rng : RNG)
    (hmiss : ShapeAggregate.intersect sq scene r (1 / 1000) f64MAX = none)
    (hunit : r.direction.squared_length = 1)
    (hsq : sq 1 = 1) :
    trace sq scene r depth rng =
      ((⟨1, 1, 1⟩ : Vec3) * (1 - 1 / 2 * ((r.direction.normalize sq).y + 1))
        + (⟨1 / 2, 7 / 10, 1⟩ : Vec3) * (1 / 2 * ((r.direction.normalize sq).y + 1)), rng)
    ∧ trace sq [] r depth rng =
      ((⟨1, 1, 1⟩ : Vec3) * (1 - 1 / 2 * ((r.direction.normalize sq).y + 1))
        + (⟨1 / 2, 7 / 10, 1⟩ : Vec3) * (1 / 2 * ((r.direction.normalize sq).y + 1)), rng) := by
  have hnorm : r.direction.normalize sq = r.direction := by
    rw [Vec3.normalize, Vec3.length, hunit, hsq, Vec3.div_one]
  have hmain : ∀ scene2 : List SphereS,
      ShapeAggregate.intersect sq scene2 r (1 / 1000) f64MAX = none →
      trace sq scene2 r depth rng =
        ((⟨1, 1, 1⟩ : Vec3) * (1 - 1 / 2 * ((r.direction.normalize sq).y + 1))
          + (⟨1 / 2, 7 / 10, 1⟩ : Vec3) * (1 / 2 * ((r.direction.normalize sq).y + 1)),
          rng) := by
    intro scene2 h2
    rw [hnorm, trace, h2]
  exact ⟨hmain scene hmiss, hmain [] rfl⟩

/-- concrete instance of `claim4_background`: the empty scene and the ray
straight up the `y` axis give exactly the sky color `(0.5, 0.7, 1.0)`
with the random state unchanged. -/
theorem claim4_witness :
    trace (fun _ => 1) [] ⟨⟨0, 0, 0⟩, ⟨0, 1, 0⟩, 1 / 1000, 100⟩ 0 wRng
      = (⟨1 / 2, 7 / 10, 1⟩, wRng) := by
  have h := (claim4_background (fun _ => 1) [] ⟨⟨0, 0, 0⟩, ⟨0, 1, 0⟩, 1 / 1000, 100⟩ 0 wRng
    rfl (by norm_num [Vec3.squared_length]) rfl).1
  rw [h]
  norm_num [Vec3.normalize, Vec3.length, Vec3.squared_length]

/-- C5: each bounce of `trace` recurses at exactly `depth + 1`, and a hit
reached at `depth ≥ MAX_DEPTH` returns black `(0,0,0)` without recursing
and without touching the random state — a deterministic hard cutoff, not
a probabilistic one.  (The definition of `trace` itself carries the
corresponding termination argument: the measure `MAX_DEPTH - depth`.) -/
theorem claim5_depth_cutoff :
    (∀ (sq : ℚ → ℚ) (scene : List SphereS) (r : Ray) (depth : ℕ) (rng : RNG)
        (dg : DifferentialGeometry) (bounce : Ray) (att : Vec3) (rng1 : RNG),
      ShapeAggregate.intersect sq scene r (1 / 1000) f64MAX = some dg →
      depth < MAX_DEPTH →
      Mat.scatter sq dg.material r dg rng = (some (bounce, att), rng1) →
      trace sq scene r depth rng =
        (att * (trace sq scene bounce (depth + 1) rng1).1,
          (trace sq scene bounce (depth + 1) rng1).2))
    ∧ (∀ (sq : ℚ → ℚ) (scene : List SphereS) (r : Ray) (depth : ℕ) (rng : RNG)
        (dg : DifferentialGeometry),
      ShapeAggregate.intersect sq scene r (1 / 1000) f64MAX = some dg →
      MAX_DEPTH ≤ depth →
      trace sq scene r depth rng = (Vec3.zero, rng)) := by
  constructor
  · intro sq scene r depth rng dg bounce att rng1 hint hdepth hscatter
    rw [trace]
    simp only [hint]
    rw [dif_pos hdepth]
    simp only [hscatter]
  · intro sq scene r depth rng dg hint hdepth
    rw [trace]
    simp only [hint]
    rw [dif_neg (not_lt.mpr hdepth)]

/-- concrete instance of `claim5_depth_cutoff`: the diffuse sphere scene
hit at `t = 4`; at depth `0` the result is the attenuated recursive trace
at depth `1`, and at depth `MAX_DEPTH = 5` the result is black with the
random state unchanged. -/
theorem claim5_witness :
    trace wSq wScene wRay 0 wRng =
      ((⟨1, 1, 1⟩ : Vec3) * (trace wSq wScene wBounce 1 wRng1).1,
        (trace wSq wScene wBounce 1 wRng1).2)
    ∧ trace wSq wScene wRay 5 wRng = (Vec3.zero, wRng) := by
  have hsphere : SphereS.intersect wSq ⟨⟨0, 0, -5⟩, 1, .lambertian ⟨1, 1, 1⟩⟩ wRay
      (1 / 1000) f64MAX = some wDg := by
    norm_num [SphereS.intersect, EPSILON, Ray.point_at, Vec3.dot, wSq, wRay, wDg]
  have hint : ShapeAggregate.intersect wSq wScene wRay (1 / 1000) f64MAX = some wDg := by
    rw [ShapeAggregate.intersect, wScene, aggLoop, hsphere]
    norm_num [aggLoop, wDg, f64MAX]
  have hscatter : Mat.scatter wSq wDg.material wRay wDg wRng
      = (some (wBounce, ⟨1, 1, 1⟩), wRng1) := by
    norm_num [Mat.scatter, Ray.new, Vec3.normalize, Vec3.length, Vec3.squared_length,
      wSq, wRng, wRng1, wDg, wBounce, wRay]
  constructor
  · exact claim5_depth_cutoff.1 wSq wScene wRay 0 wRng wDg wBounce ⟨1, 1, 1⟩ wRng1
      hint (by norm_num [MAX_DEPTH]) hscatter
  · exact claim5_depth_cutoff.2 wSq wScene wRay 5 wRng wDg hint (le_refl 5)

/-- C6: every material policy returns a scattered ray paired with an
attenuation (wrapped in the `Option` that `main.rs` consumes; no policy
in the source ever signals absorption), and the Lambertian policy in
particular always scatters toward
`normalize((hit_position + normal + random_in_unit_sphere()) − hit_position)`
with attenuation equal to its albedo, consuming one in-sphere sample. -/
theorem claim6_lambertian_scatter :
    (∀ (sq : ℚ → ℚ) (m : Mat) (incident : Ray) (dg : DifferentialGeometry) (rng : RNG),
      ∃ ray att rng1, Mat.scatter sq m incident dg rng = (some (ray, att), rng1))
    ∧ (∀ (sq : ℚ → ℚ) (albedo : Vec3) (incident : Ray) (dg : DifferentialGeometry)
        (rng : RNG),
      Mat.scatter sq (.lambertian albedo) incident dg rng =
        (some (⟨dg.position,
                (dg.position + dg.normal + rng.ris rng.ridx - dg.position).normalize sq,
                incident.t_min, incident.t_max⟩,
               albedo),
          { rng with ridx := rng.ridx + 1 })) := by
  constructor
  · intro sq m incident dg rng
    cases m with
    | lambertian albedo => exact ⟨_, _, _, rfl⟩
    | metallic albedo g => exact ⟨_, _, _, rfl⟩
    | dielectric n =>
      simp only [Mat.scatter]
      by_cases h : 0 < Mat.dielCosThetaT n incident dg
      · rw [if_pos h]; exact ⟨_, _, _, rfl⟩
      · rw [if_neg h]; exact ⟨_, _, _, rfl⟩
  · intro sq albedo incident dg rng
    rfl

/-- counterexample to C7 as stated: at a total-internal-reflection input
(`cos²θₜ = −11/25 < 0`) `Dielectric::scatter` consumes NO uniform draw at
all — the `&&` short-circuits before `rng.next_f64()` — so the random
state comes back unchanged instead of advanced by one. -/
theorem claim7_counterexample :
    (Mat.scatter (fun _ => 1) (.dielectric (3 / 2))
        ⟨⟨0, 0, 0⟩, ⟨4 / 5, 0, 3 / 5⟩, 1 / 1000, 100⟩
        ⟨1, ⟨0, 0, 0⟩, ⟨0, 0, 1⟩, .dielectric (3 / 2)⟩
        ⟨fun _ => 0, fun _ => ⟨0, 0, 0⟩, 0, 0⟩).2
      = ⟨fun _ => 0, fun _ => ⟨0, 0, 0⟩, 0, 0⟩
    ∧ Mat.dielCosThetaT (3 / 2) ⟨⟨0, 0, 0⟩, ⟨4 / 5, 0, 3 / 5⟩, 1 / 1000, 100⟩
        ⟨1, ⟨0, 0, 0⟩, ⟨0, 0, 1⟩, .dielectric (3 / 2)⟩ < 0 := by
  have hct : Mat.dielCosThetaT (3 / 2) ⟨⟨0, 0, 0⟩, ⟨4 / 5, 0, 3 / 5⟩, 1 / 1000, 100⟩
      ⟨1, ⟨0, 0, 0⟩, ⟨0, 0, 1⟩, .dielectric (3 / 2)⟩ = -11 / 25 := by
    norm_num [Mat.dielCosThetaT, Mat.dielIor, Mat.dielCosThetaI,
      Mat.dielOutwardNormal, Vec3.dot]
  refine ⟨?_, by rw [hct]; norm_num⟩
  simp only [Mat.scatter]
  rw [if_neg (by rw [hct]; norm_num)]

/-- C7 (amended): `Dielectric::scatter` consumes exactly one uniform draw
when `cos²θₜ > 0`, and none in the total-internal-reflection case, where
the short-circuit `&&` skips `rng.next_f64()`; the draw, when taken, is
read fresh from the stream at the current cursor, which then advances, so
no branch decision is ever reused by a later call. -/
theorem claim7_draws_amended (sq : ℚ → ℚ) (n : ℚ) (incident : Ray)
    (dg : DifferentialGeometry) (rng : RNG) :
    (Mat.scatter sq (.dielectric n) incident dg rng).2 =
      if 0 < Mat.dielCosThetaT n incident dg
      then { rng with uidx := rng.uidx + 1 } else rng := by
  simp only [Mat.scatter]
  by_cases h : 0 < Mat.dielCosThetaT n incident dg
  · rw [if_pos h, if_pos h]
  · rw [if_neg h, if_neg h]

/-- bound for the quantization step: a gamma-corrected channel inside
`[0, 1]` is cast to at most `255`. -/
lemma asU32_le_255 (g : ℚ) (h0 : 0 ≤ g) (h1 : g ≤ 1) :
    asU32 (25599 / 100 * g) ≤ 255 := by
  rw [asU32, if_neg (not_lt.mpr (by positivity))]
  have hq : 25599 / 100 * g ≤ 25599 / 100 := by nlinarith
  have hfl : (⌊(25599 / 100 : ℚ) * g⌋ : ℤ) ≤ 255 := by
    have h2 := Int.floor_le_floor hq
    have h255 : (⌊(25599 / 100 : ℚ)⌋ : ℤ) = 255 := by
      rw [Int.floor_eq_iff]
      norm_num
    omega
  have h3 : Int.toNat ⌊(25599 / 100 : ℚ) * g⌋ ≤ 255 := by omega
  exact le_trans (min_le_left _ _) h3

/-- counterexample to C8 as stated: the cast `as u32` saturates at
`u32::MAX`, not at `255`.  A sample sum of `2048` on the red channel
(gamma: `2048^(5/11) = 32` exactly) quantizes to `⌊255.99·32⌋ = 8191`,
far outside `[0, 255]`. -/
theorem claim8_counterexample :
    pixelColor (fun q => if q = 2048 then 32 else 0) ⟨2048, 0, 0⟩ = (8191, 0, 0)
    ∧ ¬ ((8191 : ℕ) ≤ 255) := by
  constructor
  · have hfl : (⌊(25599 / 100 : ℚ) * 32⌋ : ℤ) = 8191 := by
      rw [Int.floor_eq_iff]
      norm_num
    norm_num [pixelColor, asU32, SAMPLES, hfl]
    decide
  · norm_num

/-- C8 (amended): the per-pixel pipeline averages the sample sum by
`SAMPLES`, gamma-corrects each channel by the power `1/2.2`, and
quantizes via truncation of `255.99·channel` under a `u32` cast, which
saturates to `[0, 2³² − 1]` — not to `[0, 255]`.  Components are
guaranteed inside `[0, 255]` whenever each gamma-corrected channel lies
in `[0, 1]`, which holds for the renderer's own colors. -/
theorem claim8_quantize_amended (pw : ℚ → ℚ) (col0 : Vec3)
    (hx0 : 0 ≤ pw (col0.x / (SAMPLES : ℚ))) (hx1 : pw (col0.x / (SAMPLES : ℚ)) ≤ 1)
    (hy0 : 0 ≤ pw (col0.y / (SAMPLES : ℚ))) (hy1 : pw (col0.y / (SAMPLES : ℚ)) ≤ 1)
    (hz0 : 0 ≤ pw (col0.z / (SAMPLES : ℚ))) (hz1 : pw (col0.z / (SAMPLES : ℚ)) ≤ 1) :
    (pixelColor pw col0).1 ≤ 255 ∧ (pixelColor pw col0).2.1 ≤ 255
      ∧ (pixelColor pw col0).2.2 ≤ 255 :=
  ⟨asU32_le_255 _ hx0 hx1, asU32_le_255 _ hy0 hy1, asU32_le_255 _ hz0 hz1⟩

/-- concrete instance of `claim8_quantize_amended`: a fully white pixel
stays inside `[0, 255]` on every channel. -/
theorem claim8_witness :
    (pixelColor (fun _ => 1) ⟨1, 1, 1⟩).1 ≤ 255
    ∧ (pixelColor (fun _ => 1) ⟨1, 1, 1⟩).2.1 ≤ 255
    ∧ (pixelColor (fun _ => 1) ⟨1, 1, 1⟩).2.2 ≤ 255 :=
  claim8_quantize_amended (fun _ => 1) ⟨1, 1, 1⟩
    (by norm_num) (by norm_num) (by norm_num) (by norm_num) (by norm_num) (by norm_num)

end ST
